import Mathlib

/-!
Shallow embedding of the document ingestion and parse-completion pipeline
implemented in `src/ragflow_ops.py` (`upload_documents`,
`parse_documents_in_dataset`, and their per-file / per-document bodies).

The remote store is modelled as an oracle (`Store`): duplicate-lookup
results, per-file upload outcomes, trigger outcomes, and the scripted
sequence of status observations each polling query would return.
Network / side-effecting calls are recorded in an event trace (`Ev`).
-/

namespace RagflowOps

/-- One result of the per-document status query
`list_documents_in_dataset(dataset_object, id=doc_id)` as consumed by the
polling loop: either a document record with its `run` status string, an
empty result list, or an exception raised by the query. -/
inductive RunObs where
  | status (run : String)
  | noDoc
  | queryError
  deriving DecidableEq, Repr

/-- The three classes the polling loop sorts an observation into. -/
inductive StatusClass where
  | done_success
  | done_failure
  | still
  deriving DecidableEq, Repr

/-- Status strings the loop treats as successful completion
(`parse_status in ['success', 'DONE']`). -/
def successStatuses : List String := ["success", "DONE"]

/-- Status strings the loop treats as a reported failure
(`parse_status in ['failed', 'error', 'FAIL']`). -/
def failureStatuses : List String := ["failed", "error", "FAIL"]

/-- Classification of one observation, mirroring the `if/elif/else`
chain of the polling loop body: a found document whose `run` status is in
the success list is done-success; one whose status is in the failure list
is done-failure; any other status, an empty query result, or a query
exception is treated as still-in-progress. -/
def classify : RunObs → StatusClass
  | .status r =>
      if r ∈ successStatuses then .done_success
      else if r ∈ failureStatuses then .done_failure
      else .still
  | .noDoc => .still
  | .queryError => .still

/-- Terminal result of the polling loop for one document. `SUCCESS` and
`FAILED` are set inside the loop; `INDETERMINATE` is the post-loop
`if not parse_completed` branch (reachable only when the loop guard is
false on entry, i.e. `max_retries <= 0`). -/
inductive Terminal where
  | SUCCESS
  | FAILED
  | INDETERMINATE
  deriving DecidableEq, Repr

/-- The polling loop of `parse_documents_in_dataset` (the
`while failed_status_count < max_retries and not parse_completed` loop),
run against a finite script `obs` of future query results.

Arguments: `m` is `max_retries` (an unbounded Python int, hence `Int`),
`fc` the current `failed_status_count`. Returns `some (t, k)` when the
loop reaches terminal state `t` after consuming `k` observations (i.e.
issuing `k` status queries), and `none` when the script is exhausted
while the loop would still be running. -/
def pollList (m : Int) : Nat → List RunObs → Option (Terminal × Nat)
  | fc, [] => if (fc : Int) < m then none else some (.INDETERMINATE, 0)
  | fc, o :: rest =>
      if (fc : Int) < m then
        match classify o with
        | .done_success => some (.SUCCESS, 1)
        | .done_failure =>
            if m ≤ (fc : Int) + 1 then some (.FAILED, 1)
            else (pollList m (fc + 1) rest).map (fun p => (p.1, p.2 + 1))
        | .still => (pollList m fc rest).map (fun p => (p.1, p.2 + 1))
      else some (.INDETERMINATE, 0)

/-- Terminal outcome of the polling loop, ignoring how many queries it
took. -/
def pollOutcome (m : Int) (fc : Nat) (obs : List RunObs) : Option Terminal :=
  (pollList m fc obs).map Prod.fst

/-- Number of observations in a script that the loop classifies as
reported failures. -/
def failCount (obs : List RunObs) : Nat :=
  (obs.filter (fun o => classify o == StatusClass.done_failure)).length

theorem failCount_nil : failCount [] = 0 := rfl

theorem failCount_cons (o : RunObs) (rest : List RunObs) :
    failCount (o :: rest) =
      (if classify o = StatusClass.done_failure then 1 else 0) + failCount rest := by
  by_cases h : classify o = StatusClass.done_failure <;>
    simp [failCount, List.filter_cons, h, Nat.add_comm]

theorem failCount_append (a b : List RunObs) :
    failCount (a ++ b) = failCount a + failCount b := by
  simp [failCount, List.filter_append]

/-- Unfolding: a still-classified observation is consumed without
touching the failure counter. -/
theorem pollList_still (m : Int) (fc : Nat) (o : RunObs) (rest : List RunObs)
    (ho : classify o = .still) (hlt : (fc : Int) < m) :
    pollList m fc (o :: rest) = (pollList m fc rest).map (fun p => (p.1, p.2 + 1)) := by
  simp [pollList, ho, hlt]

/-- Unfolding: a failure observation below the threshold increments the
counter and continues. -/
theorem pollList_failure_step (m : Int) (fc : Nat) (o : RunObs) (rest : List RunObs)
    (ho : classify o = .done_failure) (hlt : (fc : Int) + 1 < m) :
    pollList m fc (o :: rest) =
      (pollList m (fc + 1) rest).map (fun p => (p.1, p.2 + 1)) := by
  have h1 : (fc : Int) < m := by omega
  have h2 : ¬ m ≤ (fc : Int) + 1 := by omega
  simp [pollList, ho, h1, h2]

/-- Unfolding: the failure observation that reaches the threshold is
terminal FAILED. -/
theorem pollList_failure_last (m : Int) (fc : Nat) (o : RunObs) (rest : List RunObs)
    (ho : classify o = .done_failure) (hlt : (fc : Int) < m) (hge : m ≤ (fc : Int) + 1) :
    pollList m fc (o :: rest) = some (.FAILED, 1) := by
  simp [pollList, ho, hlt, hge]

/-- Unfolding: a success observation is immediately terminal. -/
theorem pollList_success (m : Int) (fc : Nat) (o : RunObs) (rest : List RunObs)
    (ho : classify o = .done_success) (hlt : (fc : Int) < m) :
    pollList m fc (o :: rest) = some (.SUCCESS, 1) := by
  simp [pollList, ho, hlt]

/-- While fewer reported failures than the remaining budget have been
scripted and no success appears, the loop is still running after the
whole script. -/
theorem pollList_none_of_under_budget (m : Int) (fc : Nat) (obs : List RunObs)
    (hs : ∀ o ∈ obs, classify o ≠ .done_success)
    (hc : (fc : Int) + failCount obs < m) :
    pollList m fc obs = none := by
  induction obs generalizing fc with
  | nil =>
      have : (fc : Int) < m := by simpa [failCount_nil] using hc
      simp [pollList, this]
  | cons o rest ih =>
      have hfc : failCount (o :: rest) =
          (if classify o = StatusClass.done_failure then 1 else 0) + failCount rest :=
        failCount_cons o rest
      have hno : classify o ≠ .done_success := hs o (List.mem_cons_self o rest)
      have hs' : ∀ x ∈ rest, classify x ≠ .done_success :=
        fun x hx => hs x (List.mem_cons_of_mem o hx)
      cases hcl : classify o with
      | done_success => exact absurd hcl hno
      | done_failure =>
          have hc' : ((fc + 1 : Nat) : Int) + failCount rest < m := by
            rw [hfc] at hc
            simp [hcl] at hc
            push_cast
            omega
          have hlt : (fc : Int) + 1 < m := by
            have : (0 : Int) ≤ (failCount rest : Int) := Int.ofNat_nonneg _
            push_cast at hc'
            omega
          rw [pollList_failure_step m fc o rest hcl hlt, ih (fc + 1) hs' hc']
          rfl
      | still =>
          have hc' : (fc : Int) + failCount rest < m := by
            rw [hfc] at hc
            simp [hcl] at hc
            exact hc
          have hlt : (fc : Int) < m := by
            have : (0 : Int) ≤ (failCount rest : Int) := Int.ofNat_nonneg _
            omega
          rw [pollList_still m fc o rest hcl hlt, ih fc hs' hc']
          rfl

/-- When the script `pre` holds no success and exactly the failures that
leave one unit of budget, the next failure observation is terminal
FAILED, consuming every scripted observation. -/
theorem pollList_failed_at_budget (m : Int) (fc : Nat) (pre : List RunObs) (o : RunObs)
    (hs : ∀ x ∈ pre, classify x ≠ .done_success)
    (ho : classify o = .done_failure)
    (hc : (fc : Int) + failCount pre + 1 = m) :
    pollList m fc (pre ++ [o]) = some (.FAILED, pre.length + 1) := by
  induction pre generalizing fc with
  | nil =>
      have h0 : (fc : Int) + 1 = m := by
        simpa [failCount_nil] using hc
      have hlt : (fc : Int) < m := by omega
      have hge : m ≤ (fc : Int) + 1 := by omega
      simpa using pollList_failure_last m fc o [] ho hlt hge
  | cons p rest ih =>
      have hfc : failCount (p :: rest) =
          (if classify p = StatusClass.done_failure then 1 else 0) + failCount rest :=
        failCount_cons p rest
      have hnp : classify p ≠ .done_success := hs p (List.mem_cons_self p rest)
      have hs' : ∀ x ∈ rest, classify x ≠ .done_success :=
        fun x hx => hs x (List.mem_cons_of_mem p hx)
      cases hcl : classify p with
      | done_success => exact absurd hcl hnp
      | done_failure =>
          have hc' : ((fc + 1 : Nat) : Int) + failCount rest + 1 = m := by
            rw [hfc] at hc
            simp [hcl] at hc
            push_cast
            omega
          have hlt : (fc : Int) + 1 < m := by
            have : (0 : Int) ≤ (failCount rest : Int) := Int.ofNat_nonneg _
            push_cast at hc'
            omega
          rw [List.cons_append, pollList_failure_step m fc p (rest ++ [o]) hcl hlt,
            ih (fc + 1) hs' hc']
          simp
      | still =>
          have hc' : (fc : Int) + failCount rest + 1 = m := by
            rw [hfc] at hc
            simp [hcl] at hc
            exact hc
          have hlt : (fc : Int) < m := by
            have : (0 : Int) ≤ (failCount rest : Int) := Int.ofNat_nonneg _
            omega
          rw [List.cons_append, pollList_still m fc p (rest ++ [o]) hcl hlt,
            ih fc hs' hc']
          simp


/-- Projecting the outcome through the consumed-count shift. -/
theorem pollOutcome_shift (x : Option (Terminal × Nat)) :
    (x.map (fun p => (p.1, p.2 + 1))).map Prod.fst = x.map Prod.fst := by
  cases x <;> rfl

theorem pollOutcome_still (m : Int) (fc : Nat) (o : RunObs) (rest : List RunObs)
    (ho : classify o = .still) (hlt : (fc : Int) < m) :
    pollOutcome m fc (o :: rest) = pollOutcome m fc rest := by
  rw [pollOutcome, pollList_still m fc o rest ho hlt, pollOutcome_shift]
  rfl

theorem pollOutcome_failure_step (m : Int) (fc : Nat) (o : RunObs) (rest : List RunObs)
    (ho : classify o = .done_failure) (hlt : (fc : Int) + 1 < m) :
    pollOutcome m fc (o :: rest) = pollOutcome m (fc + 1) rest := by
  rw [pollOutcome, pollList_failure_step m fc o rest ho hlt, pollOutcome_shift]
  rfl

theorem pollOutcome_guard_false (m : Int) (fc : Nat) (obs : List RunObs)
    (hge : ¬ (fc : Int) < m) :
    pollOutcome m fc obs = some .INDETERMINATE := by
  cases obs <;> simp [pollOutcome, pollList, hge]

/-- C1: with failure budget `max_failure_observations = n ≥ 1` and any
success-free status script, the polling loop is still running while fewer
than `n` failure observations occurred, and declares terminal FAILED
exactly at the `n`-th failure observation, regardless of how many
non-failure observations are interleaved. -/
theorem poller_terminal_failed_at_nth_failure (n : Nat) (hn : 1 ≤ n)
    (pre : List RunObs) (hs : ∀ o ∈ pre, classify o ≠ .done_success) :
    (failCount pre < n → pollList (n : Int) 0 pre = none) ∧
    (failCount pre = n - 1 → ∀ o, classify o = .done_failure →
      pollList (n : Int) 0 (pre ++ [o]) = some (.FAILED, pre.length + 1)) := by
  constructor
  · intro h
    apply pollList_none_of_under_budget _ _ _ hs
    push_cast
    omega
  · intro h o ho
    apply pollList_failed_at_budget _ _ _ _ hs ho
    push_cast
    omega

/-- Concrete run of `poller_terminal_failed_at_nth_failure`: budget 2,
script failed / in-progress, then the second failure arrives. -/
theorem poller_terminal_failed_at_nth_failure_witness :
    pollList (2 : Int) 0 [RunObs.status "failed", RunObs.noDoc] = none ∧
    pollList (2 : Int) 0
        ([RunObs.status "failed", RunObs.noDoc] ++ [RunObs.status "failed"]) =
      some (.FAILED, 3) := by
  have h := poller_terminal_failed_at_nth_failure 2 (by norm_num)
    [RunObs.status "failed", RunObs.noDoc] (by decide)
  exact ⟨h.1 (by decide),
    by simpa using h.2 (by decide) (RunObs.status "failed") (by decide)⟩

/-- Modelled from the spec: the Poller the specification describes in
§4.5 / §7, which requires `max_failure_observations` *consecutive*
reported-failure observations, a non-failure observation resetting the
failure counter to zero. Used only to contrast with the implemented
`pollList`, whose counter is cumulative and never reset. -/
def pollListConsecutive (m : Int) : Nat → List RunObs → Option (Terminal × Nat)
  | fc, [] => if (fc : Int) < m then none else some (.INDETERMINATE, 0)
  | fc, o :: rest =>
      if (fc : Int) < m then
        match classify o with
        | .done_success => some (.SUCCESS, 1)
        | .done_failure =>
            if m ≤ (fc : Int) + 1 then some (.FAILED, 1)
            else (pollListConsecutive m (fc + 1) rest).map (fun p => (p.1, p.2 + 1))
        | .still => (pollListConsecutive m 0 rest).map (fun p => (p.1, p.2 + 1))
      else some (.INDETERMINATE, 0)

/-- C2 counterexample: with budget 2 and observations
failed / in-progress / failed, the implemented loop declares terminal
FAILED at the second failure even though the two failures are not
consecutive, while the reset-on-non-failure Poller described by the claim
would still be polling. -/
theorem poller_counter_never_reset_counterexample :
    pollList (2 : Int) 0
        [RunObs.status "failed", RunObs.noDoc, RunObs.status "failed"] =
      some (.FAILED, 3) ∧
    pollListConsecutive (2 : Int) 0
        [RunObs.status "failed", RunObs.noDoc, RunObs.status "failed"] = none := by
  constructor <;> decide

/-- C2 amended: the failure counter is cumulative, not consecutive; a
non-failure observation neither advances nor resets it, so inserting one
anywhere in the script leaves the loop's terminal outcome unchanged. -/
theorem poller_still_obs_preserves_outcome (m : Int) (fc : Nat)
    (pre post : List RunObs) (o : RunObs) (ho : classify o = .still) :
    pollOutcome m fc (pre ++ o :: post) = pollOutcome m fc (pre ++ post) := by
  induction pre generalizing fc with
  | nil =>
      by_cases hlt : (fc : Int) < m
      · simpa using pollOutcome_still m fc o post ho hlt
      · rw [List.nil_append, List.nil_append,
          pollOutcome_guard_false m fc _ hlt, pollOutcome_guard_false m fc _ hlt]
  | cons p pre' ih =>
      by_cases hlt : (fc : Int) < m
      · cases hcl : classify p with
        | done_success =>
            rw [List.cons_append, List.cons_append,
              pollOutcome, pollList_success m fc p _ hcl hlt,
              pollOutcome, pollList_success m fc p _ hcl hlt]
        | done_failure =>
            by_cases hge : m ≤ (fc : Int) + 1
            · rw [List.cons_append, List.cons_append,
                pollOutcome, pollList_failure_last m fc p _ hcl hlt hge,
                pollOutcome, pollList_failure_last m fc p _ hcl hlt hge]
            · have hlt2 : (fc : Int) + 1 < m := by omega
              rw [List.cons_append, List.cons_append,
                pollOutcome_failure_step m fc p _ hcl hlt2,
                pollOutcome_failure_step m fc p _ hcl hlt2]
              exact ih (fc + 1)
        | still =>
            rw [List.cons_append, List.cons_append,
              pollOutcome_still m fc p _ hcl hlt,
              pollOutcome_still m fc p _ hcl hlt]
            exact ih fc
      · rw [pollOutcome_guard_false m fc _ hlt, pollOutcome_guard_false m fc _ hlt]

/-- Concrete run of `poller_still_obs_preserves_outcome`: inserting the
in-progress observation of the C2 counterexample does not change the
FAILED outcome. -/
theorem poller_still_obs_preserves_outcome_witness :
    pollOutcome (2 : Int) 0
        ([RunObs.status "failed"] ++ RunObs.noDoc :: [RunObs.status "failed"]) =
      pollOutcome (2 : Int) 0 ([RunObs.status "failed"] ++ [RunObs.status "failed"]) := by
  exact poller_still_obs_preserves_outcome 2 0 [RunObs.status "failed"]
    [RunObs.status "failed"] RunObs.noDoc (by decide)

/-- A success observation reached with the failure budget not yet
exhausted terminates the loop at once, whatever else is scripted. -/
theorem pollList_success_shortcircuit (m : Int) (fc : Nat)
    (pre rest : List RunObs) (o : RunObs)
    (hs : ∀ x ∈ pre, classify x ≠ .done_success)
    (ho : classify o = .done_success)
    (hc : (fc : Int) + failCount pre < m) :
    pollList m fc (pre ++ o :: rest) = some (.SUCCESS, pre.length + 1) := by
  induction pre generalizing fc with
  | nil =>
      have hlt : (fc : Int) < m := by simpa [failCount_nil] using hc
      simpa using pollList_success m fc o rest ho hlt
  | cons p pre' ih =>
      have hfc : failCount (p :: pre') =
          (if classify p = StatusClass.done_failure then 1 else 0) + failCount pre' :=
        failCount_cons p pre'
      have hnp : classify p ≠ .done_success := hs p (List.mem_cons_self p pre')
      have hs' : ∀ x ∈ pre', classify x ≠ .done_success :=
        fun x hx => hs x (List.mem_cons_of_mem p hx)
      cases hcl : classify p with
      | done_success => exact absurd hcl hnp
      | done_failure =>
          have hc' : ((fc + 1 : Nat) : Int) + failCount pre' < m := by
            rw [hfc] at hc
            simp [hcl] at hc
            push_cast
            omega
          have hlt : (fc : Int) + 1 < m := by
            have : (0 : Int) ≤ (failCount pre' : Int) := Int.ofNat_nonneg _
            push_cast at hc'
            omega
          rw [List.cons_append, pollList_failure_step m fc p _ hcl hlt, ih (fc + 1) hs' hc']
          simp
      | still =>
          have hc' : (fc : Int) + failCount pre' < m := by
            rw [hfc] at hc
            simp [hcl] at hc
            exact hc
          have hlt : (fc : Int) < m := by
            have : (0 : Int) ≤ (failCount pre' : Int) := Int.ofNat_nonneg _
            omega
          rw [List.cons_append, pollList_still m fc p _ hcl hlt, ih fc hs' hc']
          simp

/-- C5: a single success observation terminates polling immediately with
terminal SUCCESS even if failure observations below the budget were
recorded earlier; exactly `pre.length + 1` status queries are issued, so
nothing scripted after the success observation is ever queried. -/
theorem poller_success_short_circuit (m : Int) (pre rest : List RunObs) (o : RunObs)
    (hs : ∀ x ∈ pre, classify x ≠ .done_success)
    (ho : classify o = .done_success)
    (hc : (failCount pre : Int) < m) :
    pollList m 0 (pre ++ o :: rest) = some (.SUCCESS, pre.length + 1) := by
  apply pollList_success_shortcircuit m 0 pre rest o hs ho
  push_cast
  omega

/-- Concrete run of `poller_success_short_circuit`: budget 3, two prior
failures and an in-progress observation, then success; the three
scripted failures after the success are never queried. -/
theorem poller_success_short_circuit_witness :
    pollList (3 : Int) 0
        ([RunObs.status "failed", RunObs.noDoc, RunObs.status "error"] ++
          RunObs.status "DONE" ::
            [RunObs.status "failed", RunObs.status "failed", RunObs.status "failed"]) =
      some (.SUCCESS, 4) := by
  simpa using poller_success_short_circuit 3
    [RunObs.status "failed", RunObs.noDoc, RunObs.status "error"]
    [RunObs.status "failed", RunObs.status "failed", RunObs.status "failed"]
    (RunObs.status "DONE") (by decide) (by decide) (by decide)

/-- Observable calls the pipeline makes against the remote store, in
order: the duplicate-lookup query (`list_documents(keywords=filename)`),
a document deletion under the replace policy, the per-file upload call
(`upload_document_to_dataset`), the asynchronous parse trigger
(`async_parse_documents`), and one per-poll status query
(`list_documents(id=doc_id)`). -/
inductive Ev where
  | dupQuery (filename : String)
  | deleteDoc (docId : String)
  | uploadCall (filename : String)
  | triggerCall (docId : String)
  | statusQuery (docId : String)
  deriving DecidableEq, Repr

/-- Oracle for the remote store's responses, making the pipeline a pure
function of its inputs: `dupMatches f` is the duplicate lookup for
filename `f` (`none` models the query raising), returning the ids of
matching documents; `upload f` is the `(success, doc_id)` pair
`upload_document_to_dataset` returns for `f`; `triggerOk d` says whether
`async_parse_documents([d])` succeeds; `statuses d` scripts the results
of successive status queries for document `d`. -/
structure Store where
  dupMatches : String → Option (List String)
  upload : String → Bool × String
  triggerOk : String → Bool
  statuses : String → List RunObs

/-- Mutable state of the folder walk in `upload_documents`: the
accumulated `uploaded_doc_ids` list, the counters, and the trace of
store calls made so far. -/
structure IngestState where
  uploaded_doc_ids : List String
  skipped : Nat
  replaced : Nat
  failed : Nat
  processed : Nat
  trace : List Ev
  deriving DecidableEq, Repr

/-- The empty initial state of one folder walk. -/
def initIngestState : IngestState :=
  { uploaded_doc_ids := [], skipped := 0, replaced := 0, failed := 0
    processed := 0, trace := [] }

/-- The duplicate-handling block of the per-file loop in
`upload_documents` (the `if duplicate_handling != 'allow'` block): under
`allow` no lookup happens; otherwise the keyword lookup for `f` is
issued; a raised lookup is caught and falls open to upload; with at
least one match, `skip_name`/`skip_content` skip the file (second
component `true`), and `replace` increments `replaced` and — only when
the first match's extracted id is truthy (`if doc_id:`) — deletes that
document, before falling through to upload. -/
def dupCheck (policy : String) (st : Store) (s : IngestState) (f : String) :
    IngestState × Bool :=
  if policy = "allow" then (s, false)
  else
    let sq : IngestState := { s with trace := s.trace ++ [Ev.dupQuery f] }
    match st.dupMatches f with
    | none => (sq, false)
    | some ms =>
        if 0 < ms.length then
          if policy = "skip_name" ∨ policy = "skip_content" then (sq, true)
          else if policy = "replace" then
            match ms.head? with
            | some did =>
                if did = "" then ({ sq with replaced := sq.replaced + 1 }, false)
                else
                  ({ sq with replaced := sq.replaced + 1
                             trace := sq.trace ++ [Ev.deleteDoc did] }, false)
            | none => ({ sq with replaced := sq.replaced + 1 }, false)
          else (sq, false)
        else (sq, false)

/-- The upload block of the per-file loop: call
`upload_document_to_dataset`; on success append the returned id to
`uploaded_doc_ids` when it is non-empty; on failure increment
`failed`. -/
def uploadStep (st : Store) (s : IngestState) (f : String) : IngestState :=
  let s2 : IngestState := { s with trace := s.trace ++ [Ev.uploadCall f] }
  let r := st.upload f
  if r.1 then
    if r.2 = "" then s2
    else { s2 with uploaded_doc_ids := s2.uploaded_doc_ids ++ [r.2] }
  else { s2 with failed := s2.failed + 1 }

/-- Body of the per-file loop in `upload_documents` for one eligible
regular file `f`: increment `processed`, run the duplicate-handling
block, then either skip (incrementing `skipped`) or run the upload
block. -/
def processFile (policy : String) (st : Store) (s : IngestState) (f : String) :
    IngestState :=
  let s0 : IngestState := { s with processed := s.processed + 1 }
  let dup := dupCheck policy st s0 f
  if dup.2 then { dup.1 with skipped := dup.1.skipped + 1 }
  else uploadStep st dup.1 f

/-- ASCII lowering of one character code, the effect of `str.lower()` on
the ASCII filenames and extensions this pipeline deals in. -/
def lowerCode (n : Nat) : Nat :=
  if 65 ≤ n ∧ n ≤ 90 then n + 32 else n

/-- Extension filter of the folder walk:
`filename.lower().endswith(allowed_extensions)`, expressed on character
codes. -/
def extensionOk (allowed : List String) (f : String) : Bool :=
  allowed.any fun ext =>
    List.isSuffixOf (ext.data.map Char.toNat)
      (f.data.map fun c => lowerCode c.toNat)

/-- The folder walk of `upload_documents`: iterate the directory entries
in order, processing each regular file whose lowercased name ends in an
allowed extension and ignoring everything else. `isFile` models
`os.path.isfile`. -/
def ingestFolder (policy : String) (allowed : List String)
    (isFile : String → Bool) (st : Store) (files : List String) : IngestState :=
  files.foldl
    (fun s f => if extensionOk allowed f && isFile f then processFile policy st s f else s)
    initIngestState

/-- Per-document result of the trigger-then-poll block inside the loop of
`parse_documents_in_dataset`: `success` and `failed` from inside the
polling loop, `indeterminate` from the post-loop `not parse_completed`
branch, `triggerFailed` when `async_parse_documents` raised and the
document was skipped. All but `success` increment `failed_count`. -/
inductive DocOutcome where
  | success
  | failed
  | indeterminate
  | triggerFailed
  deriving DecidableEq, Repr

/-- One iteration of the per-document loop of
`parse_documents_in_dataset`: issue the parse trigger for `d`; on
trigger failure count the document failed and move on; otherwise run the
polling loop against the scripted statuses. Returns the events emitted
for this document together with its outcome, or `none` when the polling
loop would still be running after the whole script (the loop never
terminates on the script). -/
def parseOneDoc (m : Int) (st : Store) (d : String) :
    Option (List Ev × DocOutcome) :=
  if st.triggerOk d then
    match pollList m 0 (st.statuses d) with
    | some (.SUCCESS, k) =>
        some (Ev.triggerCall d :: List.replicate k (Ev.statusQuery d), .success)
    | some (.FAILED, k) =>
        some (Ev.triggerCall d :: List.replicate k (Ev.statusQuery d), .failed)
    | some (.INDETERMINATE, k) =>
        some (Ev.triggerCall d :: List.replicate k (Ev.statusQuery d), .indeterminate)
    | none => none
  else some ([Ev.triggerCall d], .triggerFailed)

/-- The events document `d` contributes to the parse-phase trace. -/
def docBlock (m : Int) (st : Store) (d : String) : List Ev :=
  match parseOneDoc m st d with
  | some (tr, _) => tr
  | none => []

/-- The per-document loop of `parse_documents_in_dataset` over the whole
batch, accumulating the trace and the `success_count` / `failed_count`
counters; `none` as soon as one document's polling never terminates. -/
def parseDocsAux (m : Int) (st : Store) : List String → Option (List Ev × Nat × Nat)
  | [] => some ([], 0, 0)
  | d :: rest =>
      match parseOneDoc m st d with
      | none => none
      | some (tr, oc) =>
          (parseDocsAux m st rest).map fun p =>
            (tr ++ p.1,
             (if oc = DocOutcome.success then 1 else 0) + p.2.1,
             (if oc = DocOutcome.success then 0 else 1) + p.2.2)

/-- Aggregate result of `parse_documents_in_dataset`: the store-call
trace, the two counters, and the boolean return value
`success_count > 0`. -/
structure ParseResult where
  trace : List Ev
  success_count : Nat
  failed_count : Nat
  ret : Bool
  deriving DecidableEq, Repr

/-- The list of document ids `parse_documents_in_dataset` actually
iterates: `[str(doc_id) for doc_id in doc_ids if doc_id]`, ids already
being strings and the falsy string being `""`. -/
def validIds (ids : List String) : List String :=
  ids.filter fun i => !(i == "")

/-- Model of `parse_documents_in_dataset dataset_object doc_ids max_retries`:
returns `False` with no store contact when no valid id remains, else
processes the valid ids one at a time and returns
`success_count > 0`. `none` models the function never returning because
some document's polling loop never terminates. -/
def parseDocs (m : Int) (st : Store) (ids : List String) : Option ParseResult :=
  if (validIds ids).isEmpty then some ⟨[], 0, 0, false⟩
  else
    (parseDocsAux m st (validIds ids)).map fun p =>
      ⟨p.1, p.2.1, p.2.2, decide (0 < p.2.1)⟩

/-- The driver `upload_documents`: walk the folder uploading files, then
— only when at least one document id was collected — hand the whole
batch to `parse_documents_in_dataset`. Returns the full store-call
trace, the uploaded id list (the function's return value) and the
`parse_success` flag (`false` when parsing was skipped because nothing
was uploaded); `none` models a poll loop that never terminates. -/
def pipelineRun (policy : String) (allowed : List String)
    (isFile : String → Bool) (st : Store) (m : Int) (files : List String) :
    Option (List Ev × List String × Bool) :=
  let ing := ingestFolder policy allowed isFile st files
  if ing.uploaded_doc_ids.isEmpty then some (ing.trace, ing.uploaded_doc_ids, false)
  else
    (parseDocs m st ing.uploaded_doc_ids).map fun pr =>
      (ing.trace ++ pr.trace, ing.uploaded_doc_ids, pr.ret)

/-- Events that the ingestion phase (folder walk) may emit. -/
def isIngestEv : Ev → Bool
  | .dupQuery _ => true
  | .deleteDoc _ => true
  | .uploadCall _ => true
  | .triggerCall _ => false
  | .statusQuery _ => false

/-- Events that the parse phase (trigger + poll) may emit. -/
def isParseEv : Ev → Bool
  | .triggerCall _ => true
  | .statusQuery _ => true
  | _ => false

/-- Every event is in exactly one phase. -/
theorem isParseEv_eq_not_isIngestEv (e : Ev) : isParseEv e = ! isIngestEv e := by
  cases e <;> rfl

/-- Case analysis on the duplicate-handling block: its result state
differs from the input only in `replaced` and ingestion-phase trace
events, and the skip flag is set only under a skip policy with a
match. -/
theorem dupCheck_trace_append (policy : String) (st : Store) (s : IngestState)
    (f : String) :
    ∃ l, (dupCheck policy st s f).1.trace = s.trace ++ l ∧
      ∀ e ∈ l, isIngestEv e = true := by
  unfold dupCheck
  by_cases hp : policy = "allow"
  · exact ⟨[], by simp [hp], by simp⟩
  · simp only [hp, if_false, reduceIte]
    rcases hdm : st.dupMatches f with _ | ms
    · exact ⟨[Ev.dupQuery f], by simp, by simp [isIngestEv]⟩
    · by_cases hlen : 0 < ms.length
      · by_cases hsk : policy = "skip_name" ∨ policy = "skip_content"
        · exact ⟨[Ev.dupQuery f], by simp [hlen, hsk], by simp [isIngestEv]⟩
        · by_cases hrep : policy = "replace"
          · rcases hh : ms.head? with _ | did
            · exact ⟨[Ev.dupQuery f], by simp [hlen, hsk, hrep, hh], by simp [isIngestEv]⟩
            · by_cases hdid : did = ""
              · exact ⟨[Ev.dupQuery f], by simp [hlen, hsk, hrep, hh, hdid],
                  by simp [isIngestEv]⟩
              · refine ⟨[Ev.dupQuery f, Ev.deleteDoc did],
                  by simp [hlen, hsk, hrep, hh, hdid], ?_⟩
                intro e he
                simp only [List.mem_cons, List.not_mem_nil, or_false] at he
                rcases he with h | h <;> simp [h, isIngestEv]
          · exact ⟨[Ev.dupQuery f], by simp [hlen, hsk, hrep], by simp [isIngestEv]⟩
      · exact ⟨[Ev.dupQuery f], by simp [hlen], by simp [isIngestEv]⟩

/-- The upload block appends exactly the upload call to the trace. -/
theorem uploadStep_trace (st : Store) (s : IngestState) (f : String) :
    (uploadStep st s f).trace = s.trace ++ [Ev.uploadCall f] := by
  unfold uploadStep
  rcases hr : st.upload f with ⟨ok, did⟩
  by_cases hok : ok <;> by_cases hdid : did = "" <;> simp [hr, hok, hdid]

/-- The per-file step only appends ingestion-phase events to the trace. -/
theorem processFile_trace_append (policy : String) (st : Store) (s : IngestState)
    (f : String) :
    ∃ l, (processFile policy st s f).trace = s.trace ++ l ∧
      ∀ e ∈ l, isIngestEv e = true := by
  unfold processFile
  obtain ⟨l, hl, hli⟩ :=
    dupCheck_trace_append policy st { s with processed := s.processed + 1 } f
  by_cases hskip : (dupCheck policy st { s with processed := s.processed + 1 } f).2
  · refine ⟨l, ?_, hli⟩
    simp [hskip, hl]
  · refine ⟨l ++ [Ev.uploadCall f], ?_, ?_⟩
    · simp [hskip, uploadStep_trace, hl]
    · intro e he
      rcases List.mem_append.mp he with h | h
      · exact hli e h
      · simp only [List.mem_singleton] at h
        simp [h, isIngestEv]

/-- Store with one existing document `old-id` matching every lookup;
uploads succeed with a fresh id. -/
def storeOneMatch : Store :=
  { dupMatches := fun _ => some ["old-id"]
    upload := fun f => (true, "new-" ++ f)
    triggerOk := fun _ => true
    statuses := fun _ => [RunObs.status "DONE"] }

/-- Store whose uploads report success but yield no recoverable
document id. -/
def storeEmptyIdUpload : Store :=
  { dupMatches := fun _ => some []
    upload := fun _ => (true, "")
    triggerOk := fun _ => true
    statuses := fun _ => [] }

/-- The duplicate-handling block never touches the id list or the
uploaded/failed/skipped counters. -/
theorem dupCheck_preserves (policy : String) (st : Store) (s : IngestState)
    (f : String) :
    (dupCheck policy st s f).1.uploaded_doc_ids = s.uploaded_doc_ids ∧
    (dupCheck policy st s f).1.failed = s.failed ∧
    (dupCheck policy st s f).1.processed = s.processed ∧
    (dupCheck policy st s f).1.skipped = s.skipped := by
  unfold dupCheck
  by_cases hp : policy = "allow"
  · simp [hp]
  · simp only [hp, if_false, reduceIte]
    rcases hdm : st.dupMatches f with _ | ms
    · simp
    · by_cases hlen : 0 < ms.length
      · by_cases hsk : policy = "skip_name" ∨ policy = "skip_content"
        · simp [hlen, hsk]
        · by_cases hrep : policy = "replace"
          · rcases hh : ms.head? with _ | did
            · simp [hlen, hsk, hrep, hh]
            · by_cases hdid : did = "" <;> simp [hlen, hsk, hrep, hh, hdid]
          · simp [hlen, hsk, hrep]
      · simp [hlen]

/-- Duplicate-handling under a skip policy with at least one match:
the lookup is issued and the file is flagged for skipping. -/
theorem dupCheck_skip_policy (policy : String) (st : Store) (s : IngestState)
    (f : String) (ms : List String) (hm : st.dupMatches f = some ms) (hne : ms ≠ [])
    (hp : policy = "skip_name" ∨ policy = "skip_content") :
    dupCheck policy st s f = ({ s with trace := s.trace ++ [Ev.dupQuery f] }, true) := by
  have hpa : policy ≠ "allow" := by rcases hp with h | h <;> subst h <;> decide
  have hlen : 0 < ms.length := List.length_pos.mpr hne
  simp [dupCheck, hpa, hm, hlen, hp]

/-- Duplicate-handling under the replace policy with at least one match
whose extracted id is recoverable (truthy): the lookup is issued,
`replaced` is incremented, the first match is deleted, and the file
falls through to upload. -/
theorem dupCheck_replace_policy (st : Store) (s : IngestState)
    (f : String) (ms : List String) (did : String)
    (hm : st.dupMatches f = some ms) (hh : ms.head? = some did) (hd : did ≠ "") :
    dupCheck "replace" st s f =
      ({ s with replaced := s.replaced + 1
                trace := s.trace ++ [Ev.dupQuery f, Ev.deleteDoc did] }, false) := by
  have hlen : 0 < ms.length := by
    cases ms
    · simp at hh
    · simp
  simp [dupCheck, hm, hlen, hh, hd]

/-- The upload block leaves the skip/replace/processed counters alone. -/
theorem uploadStep_fields (st : Store) (s : IngestState) (f : String) :
    (uploadStep st s f).replaced = s.replaced ∧
    (uploadStep st s f).skipped = s.skipped ∧
    (uploadStep st s f).processed = s.processed := by
  unfold uploadStep
  rcases hr : st.upload f with ⟨ok, did⟩
  by_cases hok : ok <;> by_cases hdid : did = "" <;> simp [hr, hok, hdid]

/-- An upload that succeeds without a recoverable id changes only the
trace. -/
theorem uploadStep_empty_id (st : Store) (s : IngestState) (f : String)
    (h : st.upload f = (true, "")) :
    uploadStep st s f = { s with trace := s.trace ++ [Ev.uploadCall f] } := by
  simp [uploadStep, h]

/-- The upload block leaves `replaced` alone. -/
theorem uploadStep_replaced (st : Store) (s : IngestState) (f : String) :
    (uploadStep st s f).replaced = s.replaced :=
  (uploadStep_fields st s f).1

/-- C8: under `skip_name`, `skip_content` or `replace`, a file whose
duplicate lookup returns at least one match is never plainly allowed:
the skip policies skip it (skip counter up, no upload call, id list
unchanged), and `replace` proceeds as a replacement (replace counter
up, upload call issued), deleting the first matched document when its
extracted id is recoverable (the `if doc_id:` guard). -/
theorem resolver_never_allow_on_match (policy : String) (st : Store)
    (s : IngestState) (f : String) (ms : List String)
    (hm : st.dupMatches f = some ms) (hne : ms ≠ []) :
    ((policy = "skip_name" ∨ policy = "skip_content") →
      (processFile policy st s f).skipped = s.skipped + 1 ∧
      (processFile policy st s f).trace = s.trace ++ [Ev.dupQuery f] ∧
      (processFile policy st s f).uploaded_doc_ids = s.uploaded_doc_ids) ∧
    (policy = "replace" → ∀ did, ms.head? = some did → did ≠ "" →
      (processFile policy st s f).replaced = s.replaced + 1 ∧
      Ev.deleteDoc did ∈ (processFile policy st s f).trace ∧
      Ev.uploadCall f ∈ (processFile policy st s f).trace) := by
  constructor
  · intro hp
    simp only [processFile]
    rw [dupCheck_skip_policy policy st _ f ms hm hne hp]
    simp
  · intro hp did hh hd
    subst hp
    simp only [processFile]
    rw [dupCheck_replace_policy st _ f ms did hm hh hd]
    simp only [Bool.false_eq_true, if_false, reduceIte]
    refine ⟨?_, ?_, ?_⟩
    · rw [uploadStep_replaced]
    · rw [uploadStep_trace]
      simp
    · rw [uploadStep_trace]
      simp

/-- Concrete run of `resolver_never_allow_on_match` under both skip and
replace policies, with one matching document `old-id`. -/
theorem resolver_never_allow_on_match_witness :
    (processFile "skip_name" storeOneMatch initIngestState "a.txt").skipped = 1 ∧
    (processFile "replace" storeOneMatch initIngestState "a.txt").replaced = 1 ∧
    Ev.deleteDoc "old-id" ∈
      (processFile "replace" storeOneMatch initIngestState "a.txt").trace := by
  have h1 := resolver_never_allow_on_match "skip_name" storeOneMatch initIngestState
    "a.txt" ["old-id"] rfl (by decide)
  have h2 := resolver_never_allow_on_match "replace" storeOneMatch initIngestState
    "a.txt" ["old-id"] rfl (by decide)
  refine ⟨?_, ?_, ?_⟩
  · simpa using (h1.1 (Or.inl rfl)).1
  · simpa using (h2.2 rfl "old-id" rfl (by decide)).1
  · exact (h2.2 rfl "old-id" rfl (by decide)).2.1

/-- C9 counterexample: a single file whose upload succeeds with an empty
recovered id. The aggregate uploaded count reported by the folder walk
is the length of `uploaded_doc_ids`, which is 0 here — the file is not
counted as uploaded (it is counted as processed, and not as failed). -/
theorem empty_id_upload_not_counted_counterexample :
    (ingestFolder "allow" [".txt"] (fun _ => true) storeEmptyIdUpload
        ["a.txt"]).uploaded_doc_ids.length = 0 ∧
    (ingestFolder "allow" [".txt"] (fun _ => true) storeEmptyIdUpload
        ["a.txt"]).processed = 1 ∧
    (ingestFolder "allow" [".txt"] (fun _ => true) storeEmptyIdUpload
        ["a.txt"]).failed = 0 ∧
    (ingestFolder "allow" [".txt"] (fun _ => true) storeEmptyIdUpload
        ["a.txt"]).trace = [Ev.uploadCall "a.txt"] := by
  refine ⟨rfl, rfl, rfl, rfl⟩

/-- C9 amended: a file whose upload succeeds with an empty recovered id
leaves the returned id list (and hence the parse-trigger stage) and the
failed counter untouched, and increments the processed count. -/
theorem empty_id_upload_excluded (policy : String) (st : Store) (s : IngestState)
    (f : String) (hup : st.upload f = (true, "")) :
    (processFile policy st s f).uploaded_doc_ids = s.uploaded_doc_ids ∧
    (processFile policy st s f).failed = s.failed ∧
    (processFile policy st s f).processed = s.processed + 1 := by
  unfold processFile
  obtain ⟨hid, hfail, hproc, _⟩ :=
    dupCheck_preserves policy st { s with processed := s.processed + 1 } f
  by_cases hsk : (dupCheck policy st { s with processed := s.processed + 1 } f).2
  · simp only [hsk, if_true, reduceIte]
    simp [hid, hfail, hproc]
  · rw [if_neg hsk, uploadStep_empty_id st _ f hup]
    simp [hid, hfail, hproc]

/-- Concrete run of `empty_id_upload_excluded`. -/
theorem empty_id_upload_excluded_witness :
    (processFile "allow" storeEmptyIdUpload initIngestState "a.txt").uploaded_doc_ids
        = [] ∧
    (processFile "allow" storeEmptyIdUpload initIngestState "a.txt").failed = 0 ∧
    (processFile "allow" storeEmptyIdUpload initIngestState "a.txt").processed = 1 := by
  exact empty_id_upload_excluded "allow" storeEmptyIdUpload initIngestState "a.txt" rfl

/-- All events of the folder walk are ingestion-phase events. -/
theorem ingestFolder_trace_ingest_only (policy : String) (allowed : List String)
    (isFile : String → Bool) (st : Store) (files : List String) :
    ∀ e ∈ (ingestFolder policy allowed isFile st files).trace, isIngestEv e = true := by
  have main : ∀ (fs : List String) (s : IngestState),
      (∀ e ∈ s.trace, isIngestEv e = true) →
      ∀ e ∈ (fs.foldl (fun s f => if extensionOk allowed f && isFile f
          then processFile policy st s f else s) s).trace, isIngestEv e = true := by
    intro fs
    induction fs with
    | nil =>
        intro s hs
        simpa using hs
    | cons f rest ih =>
        intro s hs
        simp only [List.foldl_cons]
        by_cases hc : (extensionOk allowed f && isFile f) = true
        · rw [if_pos hc]
          refine ih _ ?_
          obtain ⟨l, hl, hli⟩ := processFile_trace_append policy st s f
          intro e he
          rw [hl] at he
          rcases List.mem_append.mp he with h | h
          · exact hs e h
          · exact hli e h
        · rw [if_neg hc]
          exact ih s hs
  exact main files initIngestState (by simp [initIngestState])

/-- The trace of one document's trigger-and-poll block mentions only that
document. -/
theorem parseOneDoc_trace_shape (m : Int) (st : Store) (d : String)
    (tr : List Ev) (oc : DocOutcome) (h : parseOneDoc m st d = some (tr, oc)) :
    ∀ e ∈ tr, e = Ev.triggerCall d ∨ e = Ev.statusQuery d := by
  unfold parseOneDoc at h
  by_cases ht : st.triggerOk d = true
  · rw [if_pos ht] at h
    rcases hp : pollList m 0 (st.statuses d) with _ | ⟨t, k⟩
    · rw [hp] at h
      cases h
    · rw [hp] at h
      cases t <;>
      · simp only [Option.some.injEq, Prod.mk.injEq] at h
        obtain ⟨h1, _⟩ := h
        subst h1
        intro e he
        rcases List.mem_cons.mp he with h2 | h2
        · exact Or.inl h2
        · exact Or.inr (List.eq_of_mem_replicate h2)
  · rw [if_neg ht] at h
    simp only [Option.some.injEq, Prod.mk.injEq] at h
    obtain ⟨h1, _⟩ := h
    subst h1
    intro e he
    simp only [List.mem_singleton] at he
    exact Or.inl he

/-- All events of the per-document parse loop are parse-phase events. -/
theorem parseDocsAux_trace_parse_only (m : Int) (st : Store) (l : List String)
    (tr : List Ev) (sc fc : Nat) (h : parseDocsAux m st l = some (tr, sc, fc)) :
    ∀ e ∈ tr, isParseEv e = true := by
  induction l generalizing tr sc fc with
  | nil =>
      simp only [parseDocsAux, Option.some.injEq, Prod.mk.injEq] at h
      obtain ⟨h1, _, _⟩ := h
      subst h1
      simp
  | cons d rest ih =>
      simp only [parseDocsAux] at h
      rcases hone : parseOneDoc m st d with _ | ⟨tr1, oc⟩
      · rw [hone] at h
        cases h
      · rw [hone] at h
        rcases haux : parseDocsAux m st rest with _ | ⟨tr2, sc2, fc2⟩
        · rw [haux] at h
          cases h
        · rw [haux] at h
          simp only [Option.map_some', Option.some.injEq, Prod.mk.injEq] at h
          obtain ⟨h1, _, _⟩ := h
          subst h1
          intro e he
          rcases List.mem_append.mp he with h2 | h2
          · rcases parseOneDoc_trace_shape m st d tr1 oc hone e h2 with h3 | h3 <;>
              simp [h3, isParseEv]
          · exact ih tr2 sc2 fc2 haux e h2

/-- Counting lemma for the per-document loop: every valid document is
counted exactly once, and the success counter is positive exactly when
some document's outcome was success. -/
theorem parseDocsAux_counts (m : Int) (st : Store) (l : List String)
    (tr : List Ev) (sc fc : Nat) (h : parseDocsAux m st l = some (tr, sc, fc)) :
    sc + fc = l.length ∧
    (0 < sc ↔ ∃ d ∈ l, (parseOneDoc m st d).map Prod.snd = some DocOutcome.success) := by
  induction l generalizing tr sc fc with
  | nil =>
      simp only [parseDocsAux, Option.some.injEq, Prod.mk.injEq] at h
      obtain ⟨_, h2, h3⟩ := h
      subst h2
      subst h3
      simp
  | cons d rest ih =>
      simp only [parseDocsAux] at h
      rcases hone : parseOneDoc m st d with _ | ⟨tr1, oc⟩
      · rw [hone] at h
        cases h
      · rw [hone] at h
        rcases haux : parseDocsAux m st rest with _ | ⟨tr2, sc2, fc2⟩
        · rw [haux] at h
          cases h
        · rw [haux] at h
          simp only [Option.map_some', Option.some.injEq, Prod.mk.injEq] at h
          obtain ⟨_, h2, h3⟩ := h
          subst h2
          subst h3
          obtain ⟨ihlen, ihiff⟩ := ih tr2 sc2 fc2 haux
          constructor
          · by_cases hoc : oc = DocOutcome.success <;>
              simp only [hoc, if_true, if_false, reduceIte, List.length_cons] <;>
              omega
          · by_cases hoc : oc = DocOutcome.success
            · simp only [hoc, if_true, reduceIte]
              constructor
              · intro _
                exact ⟨d, List.mem_cons_self d rest, by rw [hone]; simp [hoc]⟩
              · intro _
                omega
            · have hno : ¬ (parseOneDoc m st d).map Prod.snd = some DocOutcome.success := by
                rw [hone]
                simpa using hoc
              simp only [hoc, if_false, reduceIte, Nat.zero_add]
              rw [ihiff]
              constructor
              · intro ⟨x, hx, hpx⟩
                exact ⟨x, List.mem_cons_of_mem d hx, hpx⟩
              · intro ⟨x, hx, hpx⟩
                rcases List.mem_cons.mp hx with h4 | h4
                · subst h4
                  exact absurd hpx hno
                · exact ⟨x, h4, hpx⟩

/-- All events of `parse_documents_in_dataset` are parse-phase events. -/
theorem parseDocs_trace_parse_only (m : Int) (st : Store) (ids : List String)
    (pr : ParseResult) (h : parseDocs m st ids = some pr) :
    ∀ e ∈ pr.trace, isParseEv e = true := by
  unfold parseDocs at h
  by_cases he : (validIds ids).isEmpty
  · rw [if_pos he] at h
    obtain rfl := (Option.some.inj h).symm
    simp
  · rw [if_neg he] at h
    rcases haux : parseDocsAux m st (validIds ids) with _ | ⟨tr, sc, fc⟩
    · rw [haux] at h
      cases h
    · rw [haux] at h
      simp only [Option.map_some', Option.some.injEq] at h
      subst h
      exact parseDocsAux_trace_parse_only m st _ _ _ _ haux

/-- Store that accepts every upload with a fresh id and parses every
document successfully at the first status query. -/
def storeTwoFiles : Store :=
  { dupMatches := fun _ => some []
    upload := fun f => (true, "id-" ++ f)
    triggerOk := fun _ => true
    statuses := fun _ => [RunObs.status "DONE"] }

/-- Store whose uploads all fail. -/
def storeUploadFails : Store :=
  { dupMatches := fun _ => some []
    upload := fun _ => (false, "")
    triggerOk := fun _ => false
    statuses := fun _ => [] }

/-- Store for a three-document batch: `d1` parses successfully, any
other document reports failure at every query. -/
def parseStore3 : Store :=
  { dupMatches := fun _ => some []
    upload := fun f => (true, "id-" ++ f)
    triggerOk := fun _ => true
    statuses := fun d =>
      if d = "d1" then [RunObs.status "DONE"]
      else [RunObs.status "failed", RunObs.status "failed"] }

/-- C3 counterexample: with two eligible files, the driver uploads both
files before the first document's parse trigger and poll; the upload of
the second document precedes the termination (indeed the start) of the
first document's poll loop. -/
theorem upload_then_parse_batched_counterexample :
    pipelineRun "allow" [".txt"] (fun _ => true) storeTwoFiles 10
        ["a.txt", "b.txt"] =
      some ([Ev.uploadCall "a.txt", Ev.uploadCall "b.txt",
             Ev.triggerCall "id-a.txt", Ev.statusQuery "id-a.txt",
             Ev.triggerCall "id-b.txt", Ev.statusQuery "id-b.txt"],
            ["id-a.txt", "id-b.txt"], true) := rfl

/-- C3 amended: the driver is strictly two-phase — every upload-phase
event (duplicate lookup, delete, upload) precedes every parse-phase
event (trigger, status query); per-document end-to-end sequencing holds
only within the parse phase. -/
theorem pipeline_upload_phase_precedes_parse_phase (policy : String)
    (allowed : List String) (isFile : String → Bool) (st : Store) (m : Int)
    (files : List String) (tr : List Ev) (ids : List String) (b : Bool)
    (h : pipelineRun policy allowed isFile st m files = some (tr, ids, b)) :
    tr = tr.filter isIngestEv ++ tr.filter isParseEv := by
  unfold pipelineRun at h
  have hall := ingestFolder_trace_ingest_only policy allowed isFile st files
  by_cases he : (ingestFolder policy allowed isFile st files).uploaded_doc_ids.isEmpty
  · rw [if_pos he] at h
    have htr : (ingestFolder policy allowed isFile st files).trace = tr :=
      congrArg Prod.fst (Option.some.inj h)
    subst htr
    have hA1 : List.filter isIngestEv (ingestFolder policy allowed isFile st files).trace =
        (ingestFolder policy allowed isFile st files).trace :=
      List.filter_eq_self.mpr hall
    have hA2 : List.filter isParseEv (ingestFolder policy allowed isFile st files).trace =
        [] := by
      refine List.filter_eq_nil_iff.mpr fun e hee => ?_
      rw [isParseEv_eq_not_isIngestEv, hall e hee]
      simp
    rw [hA1, hA2]
    simp
  · rw [if_neg he] at h
    rcases hpd : parseDocs m st (ingestFolder policy allowed isFile st files).uploaded_doc_ids
        with _ | pr
    · rw [hpd] at h
      cases h
    · rw [hpd] at h
      simp only [Option.map_some', Option.some.injEq] at h
      have htr : (ingestFolder policy allowed isFile st files).trace ++ pr.trace = tr :=
        congrArg Prod.fst h
      subst htr
      have hparse := parseDocs_trace_parse_only m st _ pr hpd
      have hA1 : List.filter isIngestEv (ingestFolder policy allowed isFile st files).trace =
          (ingestFolder policy allowed isFile st files).trace :=
        List.filter_eq_self.mpr hall
      have hA2 : List.filter isParseEv (ingestFolder policy allowed isFile st files).trace =
          [] := by
        refine List.filter_eq_nil_iff.mpr fun e hee => ?_
        rw [isParseEv_eq_not_isIngestEv, hall e hee]
        simp
      have hB1 : List.filter isParseEv pr.trace = pr.trace :=
        List.filter_eq_self.mpr hparse
      have hB2 : List.filter isIngestEv pr.trace = [] := by
        refine List.filter_eq_nil_iff.mpr fun e hee => ?_
        have h2 := hparse e hee
        rw [isParseEv_eq_not_isIngestEv] at h2
        have h3 : isIngestEv e = false := by
          cases hh : isIngestEv e
          · rfl
          · rw [hh] at h2
            cases h2
        simp [h3]
      rw [List.filter_append, List.filter_append, hA1, hA2, hB1, hB2]
      simp

/-- Concrete run of `pipeline_upload_phase_precedes_parse_phase` on the
two-file pipeline of the C3 counterexample. -/
theorem pipeline_upload_phase_precedes_parse_phase_witness :
    [Ev.uploadCall "a.txt", Ev.uploadCall "b.txt", Ev.triggerCall "id-a.txt",
        Ev.statusQuery "id-a.txt", Ev.triggerCall "id-b.txt", Ev.statusQuery "id-b.txt"] =
      List.filter isIngestEv
          [Ev.uploadCall "a.txt", Ev.uploadCall "b.txt", Ev.triggerCall "id-a.txt",
            Ev.statusQuery "id-a.txt", Ev.triggerCall "id-b.txt",
            Ev.statusQuery "id-b.txt"] ++
        List.filter isParseEv
          [Ev.uploadCall "a.txt", Ev.uploadCall "b.txt", Ev.triggerCall "id-a.txt",
            Ev.statusQuery "id-a.txt", Ev.triggerCall "id-b.txt",
            Ev.statusQuery "id-b.txt"] := by
  exact pipeline_upload_phase_precedes_parse_phase "allow" [".txt"] (fun _ => true)
    storeTwoFiles 10 ["a.txt", "b.txt"] _ _ _ rfl

/-- C4: the parse phase is strictly sequential — its trace is the
in-order concatenation of per-document blocks, and each document's block
(its trigger followed by its status queries, ending at its terminal
state) mentions only that document; hence no trigger or query for a
later document occurs before an earlier document's block is complete. -/
theorem parse_phase_strictly_sequential (m : Int) (st : Store) (ids : List String)
    (tr : List Ev) (sc fc : Nat) (h : parseDocsAux m st ids = some (tr, sc, fc)) :
    tr = (ids.map (docBlock m st)).flatten ∧
    ∀ d ∈ ids, ∀ e ∈ docBlock m st d, e = Ev.triggerCall d ∨ e = Ev.statusQuery d := by
  constructor
  · induction ids generalizing tr sc fc with
    | nil =>
        simp only [parseDocsAux, Option.some.injEq, Prod.mk.injEq] at h
        obtain ⟨h1, _, _⟩ := h
        subst h1
        simp
    | cons d rest ih =>
        simp only [parseDocsAux] at h
        rcases hone : parseOneDoc m st d with _ | ⟨tr1, oc⟩
        · rw [hone] at h
          cases h
        · rw [hone] at h
          rcases haux : parseDocsAux m st rest with _ | ⟨tr2, sc2, fc2⟩
          · rw [haux] at h
            cases h
          · rw [haux] at h
            simp only [Option.map_some', Option.some.injEq, Prod.mk.injEq] at h
            obtain ⟨h1, _, _⟩ := h
            subst h1
            have hblock : docBlock m st d = tr1 := by
              rw [docBlock, hone]
            rw [List.map_cons, List.flatten_cons, hblock, ih tr2 sc2 fc2 haux]
  · intro d _ e he
    rw [docBlock] at he
    rcases hone : parseOneDoc m st d with _ | ⟨tr1, oc⟩
    · rw [hone] at he
      cases he
    · rw [hone] at he
      exact parseOneDoc_trace_shape m st d tr1 oc hone e he

/-- Concrete run of `parse_phase_strictly_sequential` on a two-document
batch: the first document succeeds after one query, the second exhausts
a budget of two failures. -/
theorem parse_phase_strictly_sequential_witness :
    [Ev.triggerCall "d1", Ev.statusQuery "d1", Ev.triggerCall "d2",
        Ev.statusQuery "d2", Ev.statusQuery "d2"] =
      (["d1", "d2"].map (docBlock 2 parseStore3)).flatten := by
  exact (parse_phase_strictly_sequential 2 parseStore3 ["d1", "d2"] _ 1 1 rfl).1

/-- C6: `parse_documents_in_dataset` returns true exactly when at least
one document of the batch reached terminal SUCCESS. -/
theorem parse_ret_iff_some_success (m : Int) (st : Store) (ids : List String)
    (pr : ParseResult) (h : parseDocs m st ids = some pr) :
    pr.ret = true ↔
      ∃ d ∈ validIds ids,
        (parseOneDoc m st d).map Prod.snd = some DocOutcome.success := by
  unfold parseDocs at h
  by_cases he : (validIds ids).isEmpty
  · rw [if_pos he] at h
    obtain rfl := (Option.some.inj h).symm
    rw [List.isEmpty_iff] at he
    rw [he]
    simp
  · rw [if_neg he] at h
    rcases haux : parseDocsAux m st (validIds ids) with _ | ⟨tr, sc, fc⟩
    · rw [haux] at h
      cases h
    · rw [haux] at h
      simp only [Option.map_some', Option.some.injEq] at h
      subst h
      obtain ⟨_, hiff⟩ := parseDocsAux_counts m st _ _ _ _ haux
      simpa [decide_eq_true_eq] using hiff

/-- Concrete run of `parse_ret_iff_some_success`: three documents, one
SUCCESS and two FAILED, return value true. -/
theorem parse_ret_iff_some_success_witness :
    (parseDocs 2 parseStore3 ["d1", "d2", "d3"]).map ParseResult.ret = some true := by
  have h : parseDocs 2 parseStore3 ["d1", "d2", "d3"] =
      some ⟨[Ev.triggerCall "d1", Ev.statusQuery "d1", Ev.triggerCall "d2",
              Ev.statusQuery "d2", Ev.statusQuery "d2", Ev.triggerCall "d3",
              Ev.statusQuery "d3", Ev.statusQuery "d3"], 1, 2, true⟩ := rfl
  have h2 := (parse_ret_iff_some_success 2 parseStore3 ["d1", "d2", "d3"] _ h).mpr
    ⟨"d1", by decide, rfl⟩
  rw [h]
  exact congrArg some h2

/-- C7: a run whose folder walk accepts no document returns the trace of
the walk alone — no parse trigger and no status query is ever issued —
and `parse_documents_in_dataset` on an empty or all-invalid id list
returns false without contacting the store at all. -/
theorem empty_batch_skips_parsing (policy : String) (allowed : List String)
    (isFile : String → Bool) (st : Store) (m : Int) (files : List String)
    (ids : List String)
    (hing : (ingestFolder policy allowed isFile st files).uploaded_doc_ids = [])
    (hids : ∀ i ∈ ids, i = "") :
    pipelineRun policy allowed isFile st m files =
      some ((ingestFolder policy allowed isFile st files).trace, [], false) ∧
    (∀ e ∈ (ingestFolder policy allowed isFile st files).trace, isParseEv e = false) ∧
    parseDocs m st ids = some ⟨[], 0, 0, false⟩ := by
  refine ⟨?_, ?_, ?_⟩
  · simp only [pipelineRun]
    rw [hing]
    simp
  · intro e he
    have h1 := ingestFolder_trace_ingest_only policy allowed isFile st files e he
    rw [isParseEv_eq_not_isIngestEv, h1]
    rfl
  · have hv : validIds ids = [] := by
      rw [validIds, List.filter_eq_nil_iff]
      intro i hi
      simp [hids i hi]
    rw [parseDocs, hv]
    simp

/-- Concrete run of `empty_batch_skips_parsing`: one file whose upload
fails, and an id list holding only the empty id. -/
theorem empty_batch_skips_parsing_witness :
    pipelineRun "allow" [".txt"] (fun _ => true) storeUploadFails 10 ["a.txt"] =
      some ([Ev.uploadCall "a.txt"], [], false) ∧
    parseDocs 10 storeUploadFails [""] = some ⟨[], 0, 0, false⟩ := by
  have h := empty_batch_skips_parsing "allow" [".txt"] (fun _ => true)
    storeUploadFails 10 ["a.txt"] [""] rfl (by decide)
  exact ⟨h.1, h.2.2⟩

/-- C10: with a non-positive failure budget the polling loop body never
runs — every poll is terminal INDETERMINATE after zero status queries —
so every document of a non-empty batch is counted failed (the trace
holds exactly the triggers, no status query) and the function returns
false: no document can be declared SUCCESS. -/
theorem nonpositive_budget_never_succeeds (m : Int) (hm : m ≤ 0) (st : Store)
    (ids : List String) (hne : validIds ids ≠ []) :
    (∀ s : List RunObs, pollList m 0 s = some (.INDETERMINATE, 0)) ∧
    parseDocs m st ids =
      some ⟨(validIds ids).map Ev.triggerCall, 0, (validIds ids).length, false⟩ := by
  have hguard : ¬ ((0 : Nat) : Int) < m := by
    push_cast
    omega
  have hpoll : ∀ s : List RunObs, pollList m 0 s = some (.INDETERMINATE, 0) := by
    intro s
    cases s <;> simp only [pollList, if_neg hguard]
  refine ⟨hpoll, ?_⟩
  have haux : ∀ l : List String,
      parseDocsAux m st l = some (l.map Ev.triggerCall, 0, l.length) := by
    intro l
    induction l with
    | nil => rfl
    | cons d rest ih =>
        by_cases ht : st.triggerOk d = true
        · simp [parseDocsAux, parseOneDoc, ht, hpoll (st.statuses d), ih, Nat.add_comm]
        · simp [parseDocsAux, parseOneDoc, ht, ih, Nat.add_comm]
  have hni : ¬ (validIds ids).isEmpty := by
    simpa [List.isEmpty_iff] using hne
  rw [parseDocs, if_neg hni, haux (validIds ids)]
  rfl

/-- Concrete run of `nonpositive_budget_never_succeeds`: budget 0, one
document whose store status would be DONE, which is never queried. -/
theorem nonpositive_budget_never_succeeds_witness :
    pollList 0 0 [RunObs.status "DONE"] = some (.INDETERMINATE, 0) ∧
    parseDocs 0 storeOneMatch ["d"] = some ⟨[Ev.triggerCall "d"], 0, 1, false⟩ := by
  have h := nonpositive_budget_never_succeeds 0 (by norm_num) storeOneMatch ["d"]
    (by decide)
  exact ⟨h.1 [RunObs.status "DONE"], h.2⟩

end RagflowOps
